import Mathlib

/-!
Verification of the zenql in-memory key-value server.

The development shallowly embeds the two source files of the repository:

* `src/storage.rs` — the expiring key-value store (`Storage`, `Item`,
  `set`, `get`, `remove_expired`).  The Rust `HashMap<String, Item>` is
  modelled as a function `String → Option Item`; the monotonic clock
  (`Instant`) is modelled by passing the current time `now : Nat`
  (milliseconds) explicitly, with `item.created.elapsed() = now - item.created`.
* `src/main.rs` — the per-request dispatch logic of `handle_conn`
  (`extract_command`, `unpack_bulk_str`, and the command match), with the
  store threaded explicitly and a trace of store operations recorded so
  that "no store access" is a provable statement.
* the wire codec: `main.rs` declares `mod resp` but `src/resp.rs` is not
  among the sources; the codec is modelled from the specification's
  wire-encoding contract (§4.1), over `List Char` streams.
-/

namespace ZenQL

/-! ## Store (src/storage.rs) -/

/-- Item from src/storage.rs: a stored value with its creation instant
(milliseconds on the monotonic clock) and its TTL in milliseconds
(`expires = 0` means "never expires"). -/
structure Item where
  value : String
  created : Nat
  expires : Nat
deriving Repr, DecidableEq

/-- The store: the Rust `HashMap<String, Item>` modelled as a map from keys
to optional items. -/
def Storage : Type := String → Option Item

/-- The expiry test from src/storage.rs:
`item.expires > 0 && item.created.elapsed().as_millis() > item.expires`,
with `elapsed = now - created` (truncated subtraction; the monotonic clock
guarantees `now ≥ created`). -/
def is_expired (item : Item) (now : Nat) : Bool :=
  decide (item.expires > 0) && decide (now - item.created > item.expires)

/-- Storage::set from src/storage.rs: unconditionally inserts an `Item`
whose `created` field is the current instant, overwriting any previous
entry for the key. -/
def Storage.set (s : Storage) (key value : String) (expires : Nat) (now : Nat) : Storage :=
  fun q => if q = key then some ⟨value, now, expires⟩ else s q

/-- Storage::remove_expired from src/storage.rs: removes every entry
whose expiry test holds at the current instant. -/
def Storage.remove_expired (s : Storage) (now : Nat) : Storage :=
  fun q =>
    match s q with
    | some item => if is_expired item now then none else some item
    | none => none

/-- Storage::get from src/storage.rs: first calls `remove_expired`
(mutating the map), then looks the key up and returns the item only if it
is not expired.  The returned pair is (result, map after the call). -/
def Storage.get (s : Storage) (key : String) (now : Nat) : Option Item × Storage :=
  let s2 := s.remove_expired now
  match s2 key with
  | some item => if is_expired item now then (none, s2) else (some item, s2)
  | none => (none, s2)

/-! ## Wire values and the dispatcher (src/main.rs) -/

/-- The RESP value type used by src/main.rs (`resp::Value`): simple
strings, bulk strings, arrays and the nil value. -/
inductive Value where
  | SimpleString : String → Value
  | BulkString : String → Value
  | Array : List Value → Value
  | Null : Value
deriving Repr

/-- unpack_bulk_str from src/main.rs: accepts a `BulkString` (yielding
its contents) or `Null` (yielding the empty string) and rejects every
other variant with an error. -/
def unpack_bulk_str : Value → Except String String
  | .BulkString s => .ok s
  | .Null => .ok ""
  | _ => .error "Expected bulk string"

/-- extract_command from src/main.rs: a request must be an `Array`; the
command name is the first element (`Null` when absent) unpacked as a bulk
string, the remaining elements are the arguments. -/
def extract_command : Value → Except String (String × List Value)
  | .Array a =>
    match unpack_bulk_str (a[0]?.getD .Null) with
    | .ok c => .ok (c, a.drop 1)
    | .error e => .error e
  | _ => .error "Unexpected command format"

/-- Rust's `str::parse::<usize>` as used by the SET branch: an optional
leading `+` sign followed by at least one ASCII digit; anything else fails
(the caller then defaults to `0`). -/
def parse_usize (s : String) : Option Nat :=
  let ds := match s.data with
    | '+' :: rest => rest
    | cs => cs
  if ds ≠ [] ∧ ds.all Char.isDigit then
    some (ds.foldl (fun acc c => acc * 10 + (c.toNat - 48)) 0)
  else none

/-- A store operation performed during dispatch, recorded so that "no call
to `Storage::set` or `Storage::get`" is a provable statement. -/
inductive StoreOp where
  | setOp : String → String → Nat → StoreOp
  | getOp : String → StoreOp
deriving Repr, DecidableEq

/-- The plain (non-PX) SET path of the dispatch match in `handle_conn`:
unpack key and value (`?` propagates their errors out of the handler) and
insert with `expires = 0`. -/
def dispatch_set_plain (key value : Value) (st : Storage) (now : Nat) :
    Except String (Value × Storage × List StoreOp) := do
  let key_str ← unpack_bulk_str key
  let value_str ← unpack_bulk_str value
  pure (.SimpleString "OK", st.set key_str value_str 0 now, [.setOp key_str value_str 0])

/-- The command dispatch block of `handle_conn` in src/main.rs (the
expression bound to `response`): the extracted command name is re-wrapped
as `Value::SimpleString` and passed to `unpack_bulk_str`; on success the
lowercased command is matched against ping/echo/set/get, on failure the
bulk-string error reply is produced.  The result carries the reply, the
store after the dispatch, and the trace of store operations; `.error`
models a `?` propagating out of `handle_conn` (fatal to the connection). -/
def dispatch (command : String) (args : List Value) (st : Storage) (now : Nat) :
    Except String (Value × Storage × List StoreOp) :=
  match unpack_bulk_str (Value.SimpleString command) with
  | .ok cmd_str =>
    match cmd_str.toLower with
    | "ping" => .ok (.SimpleString "PONG", st, [])
    | "echo" =>
      match args[0]? with
      | some v => .ok (.BulkString ((unpack_bulk_str v).toOption.getD ""), st, [])
      | none => .ok (.Null, st, [])
    | "set" =>
      match args[0]?, args[1]?, args[2]?, args[3]? with
      | some key, some value, some arg, some expiry =>
        if ((unpack_bulk_str arg).toOption.getD "").toLower = "px" then do
          let key_str ← unpack_bulk_str key
          let value_str ← unpack_bulk_str value
          let expires := (parse_usize ((unpack_bulk_str expiry).toOption.getD "0")).getD 0
          pure (.SimpleString "OK", st.set key_str value_str expires now,
            [.setOp key_str value_str expires])
        else dispatch_set_plain key value st now
      | some key, some value, _, _ => dispatch_set_plain key value st now
      | _, _, _, _ => .ok (.SimpleString "ERROR: SET requires at least a key and value", st, [])
    | "get" =>
      match args[0]? with
      | some key => do
        let key_str ← unpack_bulk_str key
        let r := st.get key_str now
        match r.1 with
        | some item => pure (.BulkString item.value, r.2, [.getOp key_str])
        | none => pure (.Null, r.2, [.getOp key_str])
      | none => .ok (.SimpleString "ERROR: GET requires one argument", st, [])
    | _ => .ok (.SimpleString "ERROR: Unknown command", st, [])
  | .error _ => .ok (.SimpleString "ERROR: Command is not a valid bulk string", st, [])

/-- Outcome of one loop iteration of `handle_conn` for a decoded request:
a reply is written and the loop continues, or the request is skipped
(`continue` after an `extract_command` error, which is only logged), or an
error propagates out of the handler and the connection terminates. -/
inductive ReqOutcome where
  | reply : Value → ReqOutcome
  | skip : ReqOutcome
  | fatal : String → ReqOutcome
deriving Repr

/-- Processing of one decoded request value in the loop of `handle_conn`:
`extract_command`, then the dispatch block.  Returns the outcome together
with the store after the iteration and the trace of store operations.
(The unconditional `remove_expired` sweep at the top of the loop happens
before the request is read and is modelled separately.) -/
def handleRequest (v : Value) (st : Storage) (now : Nat) : ReqOutcome × Storage × List StoreOp :=
  match extract_command v with
  | .ok (command, args) =>
    match dispatch command args st now with
    | .ok (resp, st2, ops) => (.reply resp, st2, ops)
    | .error e => (.fatal e, st, [])
  | .error _ => (.skip, st, [])

/-- The shape condition of claim C9: the request is not an `Array`, or its
first element (taken as `Null` when absent) is neither a `BulkString` nor
`Null`. -/
def badCommandShape : Value → Bool
  | .Array a =>
    match a[0]?.getD .Null with
    | .BulkString _ => false
    | .Null => false
    | _ => true
  | _ => true

/-- The empty store, used to instantiate theorems at concrete inputs. -/
def emptyStore : Storage := fun _ => none

/-- A one-entry store whose item was created at instant 5 with a TTL of
7 ms, used to instantiate theorems at concrete inputs. -/
def storeW : Storage := fun q => if q = "k" then some ⟨"v", 5, 7⟩ else none

/-! ## Wire codec

Modelled from the spec: `main.rs` declares `mod resp` and uses
`resp::Value` and `resp::RespHandler`, but `src/resp.rs` is not among the
sources, so the codec below follows the byte-exact wire contract of
specification §4.1 over `List Char` streams. -/

/-- Modelled from the spec: the character of a decimal digit, used to
render the decimal length fields required by §4.1 (codec source file
absent). -/
def digitChar : Nat → Char
  | 0 => '0'
  | 1 => '1'
  | 2 => '2'
  | 3 => '3'
  | 4 => '4'
  | 5 => '5'
  | 6 => '6'
  | 7 => '7'
  | 8 => '8'
  | _ => '9'

/-- Modelled from the spec: the numeric value of a digit character, used
when parsing decimal length fields (codec source file absent). -/
def digitVal (c : Char) : Nat := c.toNat - 48

/-- Modelled from the spec: the decimal rendering of a natural number,
most significant digit first, as written in the length field of bulk
strings and arrays (codec source file absent). -/
def natDigits (n : Nat) : List Char :=
  if h : n < 10 then [digitChar n]
  else natDigits (n / 10) ++ [digitChar (n % 10)]
termination_by n
decreasing_by exact Nat.div_lt_self (by omega) (by omega)

/-- The CRLF line terminator of the wire protocol. -/
def crlf : List Char := ['\r', '\n']

mutual

/-- Modelled from the spec: the byte-exact encoding of §4.1 (codec source
file absent) — SimpleString is `+text CRLF`; BulkString is
`$len CRLF bytes CRLF`; Array is `*count CRLF` followed by the encoded
elements; Null is the nil bulk string `$-1 CRLF`. -/
def encodeVal : Value → List Char
  | .SimpleString s => '+' :: s.data ++ crlf
  | .BulkString s => '$' :: natDigits s.data.length ++ crlf ++ s.data ++ crlf
  | .Array vs => '*' :: natDigits vs.length ++ crlf ++ encodeList vs
  | .Null => ['$', '-', '1', '\r', '\n']

/-- Modelled from the spec: concatenation of the encodings of the
elements of an array (codec source file absent). -/
def encodeList : List Value → List Char
  | [] => []
  | v :: vs => encodeVal v ++ encodeList vs

end

/-- Modelled from the spec: `encode(value)` of §4.1 (codec source file
absent). -/
def encode (v : Value) : List Char := encodeVal v

/-- Modelled from the spec: accumulating decimal parser for the length
field; consumes leading digit characters and stops at the first
non-digit (codec source file absent). -/
def digitsToNat : Nat → List Char → Nat × List Char
  | acc, [] => (acc, [])
  | acc, c :: rest =>
    if c.isDigit then digitsToNat (acc * 10 + digitVal c) rest else (acc, c :: rest)

/-- Modelled from the spec: expect a line-feed character (the second half
of a CRLF terminator); anything else is malformed input (codec source
file absent). -/
def expectLf : List Char → Option (List Char)
  | c :: r => if c = '\n' then some r else none
  | [] => none

/-- Modelled from the spec: expect a CRLF terminator; an unterminated or
differently-terminated line is malformed input (codec source file
absent). -/
def expectCrlf : List Char → Option (List Char)
  | c :: r => if c = '\r' then expectLf r else none
  | [] => none

/-- Modelled from the spec: read the text of a simple string up to the
CRLF terminator; a stream ending mid-line is malformed input (codec
source file absent). -/
def readLine : List Char → Option (List Char × List Char)
  | [] => none
  | c :: rest =>
    if c = '\r' then (expectLf rest).map fun r => ([], r)
    else (readLine rest).map fun p => (c :: p.1, p.2)

/-- Modelled from the spec: read a decimal length field terminated by
CRLF; a non-numeric length field is malformed input (codec source file
absent). -/
def readLenLine : List Char → Option (Nat × List Char)
  | [] => none
  | c :: rest =>
    if c.isDigit then
      match digitsToNat 0 (c :: rest) with
      | (n, r) =>
        match expectCrlf r with
        | some r2 => some (n, r2)
        | none => none
    else none

mutual

/-- Modelled from the spec: `decode_next` of §4.1 (codec source file
absent), consuming exactly one encoded value from the stream and
returning the remaining stream; `none` models end-of-stream or
`MalformedInput`.  The nil bulk string `$-1 CRLF` decodes to `Null`; a
negative length other than the nil sentinel and a non-numeric length
field are rejected.  Recursion over nested arrays is bounded by an
explicit fuel parameter. -/
def decodeVal : Nat → List Char → Option (Value × List Char)
  | 0, _ => none
  | _ + 1, [] => none
  | fuel + 1, c :: rest =>
    if c = '+' then
      (readLine rest).map fun p => (Value.SimpleString (String.mk p.1), p.2)
    else if c = '$' then
      if rest.take 4 = ['-', '1', '\r', '\n'] then some (Value.Null, rest.drop 4)
      else
        match readLenLine rest with
        | some (n, r) =>
          if (r.take n).length = n then
            match expectCrlf (r.drop n) with
            | some r2 => some (Value.BulkString (String.mk (r.take n)), r2)
            | none => none
          else none
        | none => none
    else if c = '*' then
      match readLenLine rest with
      | some (n, r) =>
        match decodeListN fuel n r with
        | some (vs, r2) => some (Value.Array vs, r2)
        | none => none
      | none => none
    else none
termination_by fuel _ => (fuel, 0)

/-- Modelled from the spec: decode the announced number of array elements
in sequence (codec source file absent). -/
def decodeListN : Nat → Nat → List Char → Option (List Value × List Char)
  | _, 0, input => some ([], input)
  | fuel, n + 1, input =>
    match decodeVal fuel input with
    | some (v, r) =>
      match decodeListN fuel n r with
      | some (vs, r2) => some (v :: vs, r2)
      | none => none
    | none => none
termination_by fuel n _ => (fuel, n + 1)

end

/-- Modelled from the spec: the top-level decoder; the fuel
`input.length + 1` suffices because every encoded value consumes at least
one character of the stream (codec source file absent). -/
def decode (input : List Char) : Option (Value × List Char) :=
  decodeVal (input.length + 1) input

mutual

/-- A value is representable on the wire when no simple string in it
contains a carriage return: a CR inside `+text CRLF` would terminate the
text early, so such values have no faithful §4.1 encoding. -/
def representable : Value → Bool
  | .SimpleString s => s.data.all fun c => c != '\r'
  | .BulkString _ => true
  | .Array vs => representableList vs
  | .Null => true

/-- All elements of the list are representable on the wire. -/
def representableList : List Value → Bool
  | [] => true
  | v :: vs => representable v && representableList vs

end

mutual

/-- The number of `Value` nodes in a value, used as a fuel bound for the
decoder. -/
def sizeVal : Value → Nat
  | .Array vs => 1 + sizeList vs
  | _ => 1

/-- The total number of `Value` nodes in a list of values. -/
def sizeList : List Value → Nat
  | [] => 0
  | v :: vs => sizeVal v + sizeList vs

end

/-! ## Theorems about the store -/

/-- C3: `Storage::get` returns `some item` exactly when the entry is
present in the map and not expired (`is_expired` uses strict `>`), and at
the instant `created + expires` — elapsed time exactly equal to the TTL —
a present entry is still returned. -/
theorem get_semantics (s : Storage) (k : String) (now : Nat) (item : Item) :
    ((Storage.get s k now).1 = some item ↔ (s k = some item ∧ is_expired item now = false))
    ∧ (s k = some item → (Storage.get s k (item.created + item.expires)).1 = some item) := by
  constructor
  · unfold Storage.get Storage.remove_expired
    cases h : s k with
    | none => simp [h]
    | some it =>
      cases he : is_expired it now <;> simp [h, he] <;> (rintro rfl; exact he)
  · intro h
    have hne : is_expired item (item.created + item.expires) = false := by
      unfold is_expired
      simp
    unfold Storage.get Storage.remove_expired
    simp [h, hne]

/-- Witness for C3: a concrete store with an entry created at instant 5
and TTL 7 still returns the entry at instant 12, the exact expiry
boundary. -/
theorem get_semantics_witness :
    (Storage.get storeW "k" 12).1 = some ⟨"v", 5, 7⟩ :=
  (get_semantics storeW "k" 12 ⟨"v", 5, 7⟩).2 rfl

/-- C5: `Storage::set` always succeeds, overwrites the existing entry and
resets `created` to the current instant; in particular after
`set k v1 100` then `set k v2 0`, `get k` returns the `v2` entry at every
later instant `t`, however large. -/
theorem set_overwrite_resets (s : Storage) (k v1 v2 : String) (t0 t1 t : Nat) :
    ((s.set k v1 100 t0) k = some ⟨v1, t0, 100⟩)
    ∧ (((s.set k v1 100 t0).set k v2 0 t1) k = some ⟨v2, t1, 0⟩)
    ∧ ((((s.set k v1 100 t0).set k v2 0 t1).get k t).1 = some ⟨v2, t1, 0⟩) := by
  refine ⟨by simp [Storage.set], by simp [Storage.set], ?_⟩
  simp [Storage.get, Storage.remove_expired, Storage.set, is_expired]

/-- C6: an entry stored with `expires = 0` is returned by `get` at every
later instant, and `remove_expired` never removes it, until the key is
overwritten. -/
theorem no_expiry_persists (s : Storage) (k v : String) (t0 t : Nat) :
    (((s.set k v 0 t0).get k t).1 = some ⟨v, t0, 0⟩)
    ∧ ((s.set k v 0 t0).remove_expired t k = some ⟨v, t0, 0⟩) := by
  constructor
  · simp [Storage.get, Storage.remove_expired, Storage.set, is_expired]
  · simp [Storage.remove_expired, Storage.set, is_expired]

/-- C7: running the expiry sweep (`remove_expired`) before a `get` at the
same instant never changes the result of the `get`. -/
theorem sweep_transparent (s : Storage) (k : String) (now : Nat) :
    ((s.remove_expired now).get k now).1 = (s.get k now).1 := by
  unfold Storage.get Storage.remove_expired
  cases h : s k with
  | none => simp [h]
  | some it => cases he : is_expired it now <;> simp [h, he]

/-! ## Theorems about the dispatcher -/

/-- C2: for every request accepted by `extract_command` (an `Array` whose
first element is a `BulkString`, `Null`, or absent), the dispatch block
replies `SimpleString "ERROR: Command is not a valid bulk string"`, leaves
the store untouched and performs no store operation, because the command
name is re-wrapped as `Value.SimpleString` before being passed to
`unpack_bulk_str`, which rejects that variant. -/
theorem dispatch_rewrap_error (v : Value) (command : String) (args : List Value)
    (st : Storage) (now : Nat) (_h : extract_command v = .ok (command, args)) :
    dispatch command args st now
      = .ok (.SimpleString "ERROR: Command is not a valid bulk string", st, [])
    ∧ unpack_bulk_str (Value.SimpleString command) = .error "Expected bulk string" :=
  ⟨rfl, rfl⟩

/-- Witness for C2: the concrete request `GET k` extracts successfully and
its dispatch produces the bulk-string error reply with no store access. -/
theorem dispatch_rewrap_error_witness :
    extract_command (.Array [.BulkString "GET", .BulkString "k"])
      = .ok ("GET", [.BulkString "k"])
    ∧ dispatch "GET" [.BulkString "k"] emptyStore 0
      = .ok (.SimpleString "ERROR: Command is not a valid bulk string", emptyStore, []) :=
  ⟨rfl, (dispatch_rewrap_error (.Array [.BulkString "GET", .BulkString "k"]) "GET"
    [.BulkString "k"] emptyStore 0 rfl).1⟩

/-- C1 (evaluation at the failing input): a request whose first element is
`PING` in any casing is answered with
`SimpleString "ERROR: Command is not a valid bulk string"`, not
`SimpleString "PONG"` — the `"ping"` arm of the dispatch match is dead
code because the command name is re-wrapped as a `SimpleString` before
`unpack_bulk_str`. -/
theorem ping_dispatch_eval (st : Storage) (now : Nat) :
    (handleRequest (.Array [.BulkString "PING"]) st now
      = (.reply (.SimpleString "ERROR: Command is not a valid bulk string"), st, []))
    ∧ (handleRequest (.Array [.BulkString "ping"]) st now
      = (.reply (.SimpleString "ERROR: Command is not a valid bulk string"), st, []))
    ∧ (handleRequest (.Array [.BulkString "PiNg"]) st now
      = (.reply (.SimpleString "ERROR: Command is not a valid bulk string"), st, [])) :=
  ⟨rfl, rfl, rfl⟩

/-- C4 (evaluation at the failing input): a `SET key value` request, with
or without a `PX ttl` option, is answered with the bulk-string error
reply; `Storage::set` is never called (the operation trace is empty) and
the store is unchanged — the `"set"` arm of the dispatch match is dead
code. -/
theorem set_dispatch_eval (st : Storage) (now : Nat) :
    (handleRequest (.Array [.BulkString "SET", .BulkString "foo", .BulkString "bar"]) st now
      = (.reply (.SimpleString "ERROR: Command is not a valid bulk string"), st, []))
    ∧ (handleRequest (.Array [.BulkString "SET", .BulkString "foo", .BulkString "bar",
        .BulkString "PX", .BulkString "100"]) st now
      = (.reply (.SimpleString "ERROR: Command is not a valid bulk string"), st, [])) :=
  ⟨rfl, rfl⟩

/-- C8 (evaluation at the failing input): an unrecognized command `FOO`
is answered with `SimpleString "ERROR: Command is not a valid bulk
string"` — an error-style reply with no store access, but its text
reports an invalid bulk string, not an unknown command, and it is the
same reply every supported command receives: the
`"ERROR: Unknown command"` arm is dead code. -/
theorem unknown_command_eval (st : Storage) (now : Nat) :
    handleRequest (.Array [.BulkString "FOO"]) st now
      = (.reply (.SimpleString "ERROR: Command is not a valid bulk string"), st, []) :=
  rfl

/-- C9: when the decoded request is not an `Array`, or its first element
is neither a `BulkString` nor `Null`, `extract_command` fails and the
loop of `handle_conn` logs the error and continues (`.skip`): the store
is not mutated by the dispatch and no store operation is performed. -/
theorem invalid_format_skip (v : Value) (st : Storage) (now : Nat)
    (h : badCommandShape v = true) :
    handleRequest v st now = (.skip, st, []) := by
  cases v with
  | Array a =>
    cases hv : a[0]?.getD .Null with
    | SimpleString s => simp [handleRequest, extract_command, hv, unpack_bulk_str]
    | BulkString s => simp [badCommandShape, hv] at h
    | Array l => simp [handleRequest, extract_command, hv, unpack_bulk_str]
    | Null => simp [badCommandShape, hv] at h
  | SimpleString s => rfl
  | BulkString s => rfl
  | Null => rfl

/-- Witness for C9: a concrete non-Array request is skipped with the
store untouched. -/
theorem invalid_format_skip_witness :
    badCommandShape (.SimpleString "x") = true
    ∧ handleRequest (.SimpleString "x") emptyStore 0 = (.skip, emptyStore, []) :=
  ⟨rfl, invalid_format_skip (.SimpleString "x") emptyStore 0 rfl⟩

/-! ## Theorems about the codec -/

/-- The character of every digit below ten is an ASCII digit. -/
theorem digitChar_isDigit (d : Nat) (h : d < 10) : (digitChar d).isDigit = true := by
  interval_cases d <;> decide

/-- Rendering a digit below ten and reading it back is the identity. -/
theorem digitVal_digitChar (d : Nat) (h : d < 10) : digitVal (digitChar d) = d := by
  interval_cases d <;> decide

/-- Every character of a decimal rendering is an ASCII digit. -/
theorem natDigits_isDigit (n : Nat) : ∀ c ∈ natDigits n, c.isDigit = true := by
  induction n using Nat.strong_induction_on with
  | _ n ih =>
    intro c hc
    rw [natDigits] at hc
    split at hc
    · next h =>
      simp at hc
      subst hc
      exact digitChar_isDigit n h
    · next h =>
      rw [List.mem_append] at hc
      rcases hc with h1 | h1
      · exact ih (n / 10) (Nat.div_lt_self (by omega) (by omega)) c h1
      · simp at h1
        subst h1
        exact digitChar_isDigit (n % 10) (Nat.mod_lt n (by omega))

/-- A decimal rendering is never empty. -/
theorem natDigits_ne_nil (n : Nat) : natDigits n ≠ [] := by
  rw [natDigits]
  split <;> simp

/-- One step of the decimal parser on a digit character. -/
theorem digitsToNat_cons_digit (acc : Nat) (c : Char) (h : c.isDigit = true)
    (rest : List Char) :
    digitsToNat acc (c :: rest) = digitsToNat (acc * 10 + digitVal c) rest := by
  simp [digitsToNat, h]

/-- The decimal parser stops at a non-digit character. -/
theorem digitsToNat_cons_nondigit (acc : Nat) (c : Char) (h : c.isDigit = false)
    (rest : List Char) :
    digitsToNat acc (c :: rest) = (acc, c :: rest) := by
  simp [digitsToNat, h]

/-- Running the decimal parser over a decimal rendering accumulates
exactly the rendered number. -/
theorem digitsToNat_natDigits (n : Nat) :
    ∀ acc rest, digitsToNat acc (natDigits n ++ rest)
      = digitsToNat (acc * 10 ^ (natDigits n).length + n) rest := by
  induction n using Nat.strong_induction_on with
  | _ n ih =>
    intro acc rest
    rw [natDigits]
    split
    · next h =>
      rw [List.singleton_append, digitsToNat_cons_digit acc _ (digitChar_isDigit n h),
        digitVal_digitChar n h]
      simp
    · next h =>
      rw [List.append_assoc, ih (n / 10) (Nat.div_lt_self (by omega) (by omega)),
        List.singleton_append,
        digitsToNat_cons_digit _ _ (digitChar_isDigit (n % 10) (Nat.mod_lt n (by omega))),
        digitVal_digitChar (n % 10) (Nat.mod_lt n (by omega))]
      congr 1
      rw [List.length_append, List.length_singleton, pow_succ, ← mul_assoc]
      generalize acc * 10 ^ (natDigits (n / 10)).length = A
      omega

/-- Reading a line-feed character succeeds. -/
theorem expectLf_cons (r : List Char) : expectLf ('\n' :: r) = some r := by
  simp [expectLf]

/-- Reading a CRLF terminator succeeds. -/
theorem expectCrlf_cons (r : List Char) : expectCrlf ('\r' :: '\n' :: r) = some r := by
  simp [expectCrlf, expectLf]

/-- Reading a CR-free line terminated by CRLF yields exactly that line. -/
theorem readLine_no_cr (l : List Char) (h : ∀ c ∈ l, c ≠ '\r') (rest : List Char) :
    readLine (l ++ '\r' :: '\n' :: rest) = some (l, rest) := by
  induction l with
  | nil => simp [readLine, expectLf]
  | cons c cs ih =>
    have hc : c ≠ '\r' := h c (List.mem_cons_self _ _)
    rw [List.cons_append]
    simp [readLine, hc, ih fun c2 hc2 => h c2 (List.mem_cons_of_mem _ hc2)]

/-- Reading a length field written as a decimal rendering terminated by
CRLF yields exactly the rendered number. -/
theorem readLenLine_natDigits (n : Nat) (rest : List Char) :
    readLenLine (natDigits n ++ '\r' :: '\n' :: rest) = some (n, rest) := by
  obtain ⟨d, ds, hd⟩ : ∃ d ds, natDigits n = d :: ds := by
    cases h : natDigits n with
    | nil => exact absurd h (natDigits_ne_nil n)
    | cons d ds => exact ⟨d, ds, rfl⟩
  have hdig : d.isDigit = true :=
    natDigits_isDigit n d (by rw [hd]; exact List.mem_cons_self _ _)
  have hfull : digitsToNat 0 (natDigits n ++ '\r' :: '\n' :: rest)
      = (n, '\r' :: '\n' :: rest) := by
    rw [digitsToNat_natDigits, digitsToNat_cons_nondigit _ _ (by decide)]
    simp
  rw [hd] at hfull
  rw [hd, List.cons_append]
  rw [readLenLine]
  rw [List.cons_append] at hfull
  simp [hdig, hfull, expectCrlf_cons]

/-- Every value takes at least one node of fuel. -/
theorem sizeVal_pos (v : Value) : 1 ≤ sizeVal v := by
  cases v <;> simp [sizeVal]

/-- A member of a list of values is no larger than the whole list. -/
theorem sizeVal_le_sizeList (v : Value) (vs : List Value) (h : v ∈ vs) :
    sizeVal v ≤ sizeList vs := by
  induction vs with
  | nil => cases h
  | cons w ws ih =>
    rw [sizeList]
    rcases List.mem_cons.mp h with h1 | h1
    · subst h1; omega
    · have := ih h1; omega

/-- Members of a representable list of values are representable. -/
theorem representableList_mem (vs : List Value) (h : representableList vs = true)
    (v : Value) (hv : v ∈ vs) : representable v = true := by
  induction vs with
  | nil => cases hv
  | cons w ws ih =>
    rw [representableList, Bool.and_eq_true] at h
    rcases List.mem_cons.mp hv with h1 | h1
    · subst h1; exact h.1
    · exact ih h.2 h1

/-- Structural induction over `Value` giving the induction hypothesis for
every member of an array, derived from the automatically generated
`sizeOf`. -/
theorem value_strong_ind (P : Value → Prop)
    (h1 : ∀ s, P (Value.SimpleString s))
    (h2 : ∀ s, P (Value.BulkString s))
    (h3 : P Value.Null)
    (h4 : ∀ vs, (∀ v ∈ vs, P v) → P (Value.Array vs)) :
    ∀ v, P v := by
  have key : ∀ n (v : Value), sizeOf v ≤ n → P v := by
    intro n
    induction n with
    | zero =>
      intro v hv
      cases v <;> simp at hv
    | succ n ih =>
      intro v hv
      cases v with
      | SimpleString s => exact h1 s
      | BulkString s => exact h2 s
      | Null => exact h3
      | Array vs =>
        refine h4 vs fun v2 hv2 => ih v2 ?_
        have hlt := List.sizeOf_lt_of_mem hv2
        have harr : sizeOf (Value.Array vs) = 1 + sizeOf vs := by simp
        omega
  exact fun v => key (sizeOf v) v le_rfl

/-- The node count of a list of values is bounded by the length of its
encoding. -/
theorem sizeList_le_encodeList (vs : List Value)
    (h : ∀ v ∈ vs, sizeVal v ≤ (encodeVal v).length) :
    sizeList vs ≤ (encodeList vs).length := by
  induction vs with
  | nil => simp [sizeList, encodeList]
  | cons v ws ih =>
    rw [sizeList, encodeList, List.length_append]
    have hv := h v (List.mem_cons_self _ _)
    have hw := ih fun v2 hv2 => h v2 (List.mem_cons_of_mem _ hv2)
    omega

/-- The node count of a value is bounded by the length of its encoding,
so `input.length + 1` is always enough fuel for the decoder. -/
theorem sizeVal_le_encodeVal (v : Value) : sizeVal v ≤ (encodeVal v).length := by
  induction v using value_strong_ind with
  | h1 s => simp [sizeVal, encodeVal, crlf]
  | h2 s => simp [sizeVal, encodeVal, crlf]
  | h3 => simp [sizeVal, encodeVal]
  | h4 vs ih =>
    have := sizeList_le_encodeList vs ih
    rw [sizeVal, encodeVal]
    simp [crlf]
    omega

/-- A string's character list rebuilds the string. -/
theorem mk_data (s : String) : String.mk s.data = s := by
  cases s
  rfl

/-- A decimal rendering starts with a digit character. -/
theorem natDigits_cons (n : Nat) : ∃ d ds, natDigits n = d :: ds ∧ d.isDigit = true := by
  cases h : natDigits n with
  | nil => exact absurd h (natDigits_ne_nil n)
  | cons d ds =>
    refine ⟨d, ds, rfl, natDigits_isDigit n d ?_⟩
    rw [h]
    exact List.mem_cons_self _ _

/-- A stream starting with a decimal length field never matches the nil
bulk-string marker, whose first character is a dash. -/
theorem natDigits_take4_ne (n : Nat) (X : List Char) :
    (natDigits n ++ X).take 4 ≠ ['-', '1', '\r', '\n'] := by
  obtain ⟨d, ds, hd, hdig⟩ := natDigits_cons n
  rw [hd, List.cons_append]
  intro hEq
  have h4 : (d :: (ds ++ X)).take 4 = d :: (ds ++ X).take 3 := rfl
  rw [h4] at hEq
  injection hEq with h5 _
  rw [h5] at hdig
  exact absurd hdig (by decide)

/-- Decoding the concatenated encodings of a list of values yields the
list back, given that each element round-trips. -/
theorem decodeListN_encodeList (f : Nat) (vs : List Value)
    (h : ∀ v ∈ vs, ∀ r, decodeVal f (encodeVal v ++ r) = some (v, r)) :
    ∀ rest, decodeListN f vs.length (encodeList vs ++ rest) = some (vs, rest) := by
  induction vs with
  | nil =>
    intro rest
    simp [encodeList, decodeListN]
  | cons v ws ih =>
    intro rest
    rw [encodeList, List.append_assoc, List.length_cons]
    simp only [decodeListN]
    rw [h v (List.mem_cons_self _ _)]
    simp [ih fun v2 h2 r => h v2 (List.mem_cons_of_mem _ h2) r]

/-- The decoder inverts the encoder on every representable value, for any
fuel at least the value's node count, leaving the rest of the stream
untouched. -/
theorem decodeVal_encodeVal (fuel : Nat) :
    ∀ (v : Value) (rest : List Char), sizeVal v ≤ fuel → representable v = true →
      decodeVal fuel (encodeVal v ++ rest) = some (v, rest) := by
  induction fuel using Nat.strong_induction_on with
  | _ fuel ih =>
    intro v rest hsz hrep
    obtain ⟨f, rfl⟩ : ∃ f, fuel = f + 1 := ⟨fuel - 1, by have := sizeVal_pos v; omega⟩
    cases v with
    | SimpleString s =>
      have hcr : ∀ c ∈ s.data, c ≠ '\r' := by
        rw [representable, List.all_eq_true] at hrep
        intro c hc
        simpa using hrep c hc
      have hread := readLine_no_cr s.data hcr rest
      simp [encodeVal, crlf, decodeVal, List.append_assoc, hread, mk_data]
    | BulkString s =>
      have hmark := natDigits_take4_ne s.data.length
        ('\r' :: '\n' :: (s.data ++ '\r' :: '\n' :: rest))
      have hlen := readLenLine_natDigits s.data.length (s.data ++ '\r' :: '\n' :: rest)
      simp only [encodeVal, crlf, List.cons_append, List.append_assoc, List.nil_append,
        decodeVal]
      rw [if_pos trivial, if_neg hmark, hlen]
      simp [List.take_left, List.drop_left, expectCrlf_cons, mk_data]
    | Null =>
      simp [encodeVal, decodeVal]
    | Array vs =>
      rw [representable] at hrep
      have hsz2 : sizeList vs ≤ f := by
        rw [sizeVal] at hsz
        omega
      have helem : ∀ v2 ∈ vs, ∀ r, decodeVal f (encodeVal v2 ++ r) = some (v2, r) := by
        intro v2 h2 r
        exact ih f (by omega) v2 r (le_trans (sizeVal_le_sizeList v2 vs h2) hsz2)
          (representableList_mem vs hrep v2 h2)
      have hlen := readLenLine_natDigits vs.length (encodeList vs ++ rest)
      have hlist := decodeListN_encodeList f vs helem rest
      simp only [encodeVal, crlf, List.cons_append, List.append_assoc, List.nil_append,
        decodeVal]
      rw [if_pos trivial, hlen]
      simp [hlist]

/-- C10: for every representable wire value — one whose simple strings
contain no carriage return, the only values the `+text CRLF` form can
carry — decoding the encoding yields the value back with the whole
stream consumed. -/
theorem codec_roundtrip (v : Value) (h : representable v = true) :
    decode (encode v) = some (v, []) := by
  unfold decode encode
  have h1 : sizeVal v ≤ (encodeVal v).length + 1 :=
    le_trans (sizeVal_le_encodeVal v) (Nat.le_succ _)
  have h2 := decodeVal_encodeVal ((encodeVal v).length + 1) v [] h1 h
  simpa using h2

/-- Witness for C10: a concrete array of a bulk string, a nil and a
simple string round-trips through the codec. -/
theorem codec_roundtrip_witness :
    representable (Value.Array [Value.BulkString "hi", Value.Null, Value.SimpleString "OK"]) = true
    ∧ decode (encode (Value.Array [Value.BulkString "hi", Value.Null, Value.SimpleString "OK"]))
      = some (Value.Array [Value.BulkString "hi", Value.Null, Value.SimpleString "OK"], []) :=
  ⟨by simp [representable, representableList],
    codec_roundtrip _ (by simp [representable, representableList])⟩

end ZenQL
